import Mathlib

/-!
# Verification of the labor-judgment crawler (`scraper.py`)

A shallow embedding of the core pipeline of `scraper.py`:
* `clean_json_string` / the list-unwrap step of `extract_data_with_llm`
  (the spec's ResponseParser),
* the length gate of `extract_data_with_llm` (the spec's ExtractionClient),
* the smart content grab inside `run` (the spec's ContentLocator),
* the CSV load / append / rewrite state handling of `run`
  (the spec's CrawlStateStore),
* the paginated harvesting and per-case loop of `run`
  (the spec's PaginatedSearchNavigator and CrawlOrchestrator).

Machine-level conventions: Python strings are Lean `String`/`List Char`
(code points); Python `json.loads` numbers are modelled as exact rationals
(the float rounding of non-integral literals is outside the model); the
pandas CSV file is modelled at the record level, as a header line plus one
list of field strings per row.
-/

namespace Scraper

/-- Brace characters, kept out of string literals. -/
def lbrace : Char := Char.ofNat 123

def rbrace : Char := Char.ofNat 125

def quoteChar : Char := Char.ofNat 34

/-- The value space of Python's `json.loads`: JSON values, plus the
non-strict `NaN` / `Infinity` / `-Infinity` literals that `json.loads`
accepts by default. -/
inductive Json where
  | null
  | bool (b : Bool)
  | num (q : ℚ)
  | str (s : String)
  | arr (elems : List Json)
  | obj (members : List (String × Json))
  | nanV
  | infV
  | ninfV

/-- Whitespace skipping of the `json` module (space, tab, newline, CR). -/
def skipWs : List Char → List Char
  | [] => []
  | c :: cs => if c = ' ' ∨ c = '\t' ∨ c = '\n' ∨ c = '\r' then skipWs cs else c :: cs

/-- One short escape of a JSON string (`json.decoder.BACKSLASH`). -/
def escChar (c : Char) : Option Char :=
  if c = quoteChar then some quoteChar
  else if c = '\\' then some '\\'
  else if c = '/' then some '/'
  else if c = 'b' then some (Char.ofNat 8)
  else if c = 'f' then some (Char.ofNat 12)
  else if c = 'n' then some '\n'
  else if c = 'r' then some '\r'
  else if c = 't' then some '\t'
  else none

def hexVal (c : Char) : Option Nat :=
  if '0' ≤ c ∧ c ≤ '9' then some (c.toNat - 48)
  else if 'a' ≤ c ∧ c ≤ 'f' then some (c.toNat - 87)
  else if 'A' ≤ c ∧ c ≤ 'F' then some (c.toNat - 55)
  else none

/-- Body of a JSON string after the opening quote: returns the decoded
content and the input following the closing quote.  Strict mode: raw
control characters below 0x20 are rejected, only the standard escapes and
`\uXXXX` are accepted. -/
def parseStringBody : List Char → Option (List Char × List Char)
  | [] => none
  | c :: cs =>
    if c = quoteChar then some ([], cs)
    else if c = '\\' then
      match cs with
      | [] => none
      | e :: cs' =>
        if e = 'u' then
          match cs' with
          | h1 :: h2 :: h3 :: h4 :: cs'' =>
            match hexVal h1, hexVal h2, hexVal h3, hexVal h4 with
            | some a, some b, some c2, some d =>
              match parseStringBody cs'' with
              | some (out, r) => some (Char.ofNat (((a * 16 + b) * 16 + c2) * 16 + d) :: out, r)
              | none => none
            | _, _, _, _ => none
          | _ => none
        else
          match escChar e with
          | some ch =>
            match parseStringBody cs' with
            | some (out, r) => some (ch :: out, r)
            | none => none
          | none => none
    else if c.toNat < 32 then none
    else
      match parseStringBody cs with
      | some (out, r) => some (c :: out, r)
      | none => none

/-- Longest digit run at the head of the input. -/
def takeDigits : List Char → List Char × List Char
  | [] => ([], [])
  | c :: cs =>
    if c.isDigit then
      let (ds, r) := takeDigits cs
      (c :: ds, r)
    else ([], c :: cs)

def digitsToNat (ds : List Char) : Nat :=
  ds.foldl (fun a c => a * 10 + (c.toNat - 48)) 0

def natTenPow : Nat → Nat
  | 0 => 1
  | n + 1 => 10 * natTenPow n

/-- `mant * 10 ^ e` as an exact rational, for a signed exponent. -/
def ratScale (mant : Int) (e : Int) : ℚ :=
  if 0 ≤ e then mkRat (mant * (natTenPow e.toNat : Int)) 1
  else mkRat mant (natTenPow (-e).toNat)

/-- The JSON number grammar `-?(0|[1-9]\d*)(\.\d+)?([eE][-+]?\d+)?` of
`json.scanner`, evaluated exactly: returns the value and the rest of the
input after the matched span.  A `.` or `e` that is not followed by a
digit is not consumed (the regex leaves it out of the match). -/
def parseNumberL (cs : List Char) : Option (Json × List Char) :=
  let signAndRest : Bool × List Char :=
    match cs with
    | c :: r => if c = '-' then (true, r) else (false, cs)
    | [] => (false, cs)
  let neg := signAndRest.1
  let cs1 := signAndRest.2
  match cs1 with
  | [] => none
  | c :: cs1' =>
    if ¬ c.isDigit then none
    else
      let intAndRest : List Char × List Char :=
        if c = '0' then (['0'], cs1') else takeDigits cs1
      let intDs := intAndRest.1
      let cs2 := intAndRest.2
      let fracAndRest : List Char × List Char :=
        match cs2 with
        | d :: r =>
          if d = '.' then
            match takeDigits r with
            | ([], _) => ([], cs2)
            | (ds, r2) => (ds, r2)
          else ([], cs2)
        | [] => ([], cs2)
      let fracDs := fracAndRest.1
      let cs3 := fracAndRest.2
      let expAndRest : Int × List Char :=
        match cs3 with
        | e :: r =>
          if e = 'e' ∨ e = 'E' then
            match r with
            | s :: r2 =>
              if s = '+' then
                match takeDigits r2 with
                | ([], _) => (0, cs3)
                | (ds, r3) => ((digitsToNat ds : Int), r3)
              else if s = '-' then
                match takeDigits r2 with
                | ([], _) => (0, cs3)
                | (ds, r3) => (-(digitsToNat ds : Int), r3)
              else
                match takeDigits r with
                | ([], _) => (0, cs3)
                | (ds, r3) => ((digitsToNat ds : Int), r3)
            | [] => (0, cs3)
          else (0, cs3)
        | [] => (0, cs3)
      let expVal := expAndRest.1
      let cs4 := expAndRest.2
      let mant : Int :=
        (if neg then -1 else 1) *
          ((digitsToNat intDs * natTenPow fracDs.length + digitsToNat fracDs : Nat) : Int)
      some (Json.num (ratScale mant (expVal - fracDs.length)), cs4)

/-- Parser position: at a value, inside an object's members (at a key), or
inside an array's elements (at a value). -/
inductive PMode where
  | value
  | members (acc : List (String × Json))
  | elems (acc : List Json)

/-- The recursive JSON scanner, structurally recursive on a fuel bound;
the fuel only bounds nesting/iteration and `length + 1` is always enough,
because every fuel decrement consumes at least one input character. -/
def parseCore : Nat → PMode → List Char → Option (Json × List Char)
  | 0, _, _ => none
  | Nat.succ fuel, PMode.value, cs =>
    match cs with
    | [] => none
    | c :: rest =>
      if c = quoteChar then
        match parseStringBody rest with
        | some (content, r) => some (Json.str (String.mk content), r)
        | none => none
      else if c = lbrace then
        match skipWs rest with
        | [] => none
        | c1 :: r1 =>
          if c1 = rbrace then some (Json.obj [], r1)
          else parseCore fuel (PMode.members []) (c1 :: r1)
      else if c = '[' then
        match skipWs rest with
        | [] => none
        | c1 :: r1 =>
          if c1 = ']' then some (Json.arr [], r1)
          else parseCore fuel (PMode.elems []) (c1 :: r1)
      else if ("true".data.isPrefixOf cs) then some (Json.bool true, cs.drop 4)
      else if ("false".data.isPrefixOf cs) then some (Json.bool false, cs.drop 5)
      else if ("null".data.isPrefixOf cs) then some (Json.null, cs.drop 4)
      else if ("NaN".data.isPrefixOf cs) then some (Json.nanV, cs.drop 3)
      else if ("Infinity".data.isPrefixOf cs) then some (Json.infV, cs.drop 8)
      else if ("-Infinity".data.isPrefixOf cs) then some (Json.ninfV, cs.drop 9)
      else parseNumberL cs
  | Nat.succ fuel, PMode.members acc, cs =>
    match cs with
    | c :: rest =>
      if c = quoteChar then
        match parseStringBody rest with
        | some (key, r1) =>
          match skipWs r1 with
          | c1 :: r2 =>
            if c1 = ':' then
              match parseCore fuel PMode.value (skipWs r2) with
              | some (v, r3) =>
                match skipWs r3 with
                | c2 :: r4 =>
                  if c2 = ',' then
                    parseCore fuel (PMode.members (acc ++ [(String.mk key, v)])) (skipWs r4)
                  else if c2 = rbrace then some (Json.obj (acc ++ [(String.mk key, v)]), r4)
                  else none
                | [] => none
              | none => none
            else none
          | [] => none
        | none => none
      else none
    | [] => none
  | Nat.succ fuel, PMode.elems acc, cs =>
    match parseCore fuel PMode.value cs with
    | some (v, r) =>
      match skipWs r with
      | c :: r2 =>
        if c = ',' then parseCore fuel (PMode.elems (acc ++ [v])) (skipWs r2)
        else if c = ']' then some (Json.arr (acc ++ [v]), r2)
        else none
      | [] => none
    | none => none

/-- Python `json.loads`: skip leading whitespace, parse one value, skip
trailing whitespace, and require the end of the string (`Extra data`
otherwise). -/
def jsonLoads (s : String) : Option Json :=
  match parseCore (s.data.length + 1) PMode.value (skipWs s.data) with
  | some (v, rest) => if (skipWs rest).isEmpty then some v else none
  | none => none

/-- The span matched by `re.search(r'\x7b.*\x7d', text, re.DOTALL)`: the
leftmost possible start is the first brace-open, and the greedy `.*` (with
DOTALL, so newlines included) extends to the last brace-close of the whole
string; there is a match exactly when a brace-close occurs after the first
brace-open. -/
def braceSpan (cs : List Char) : Option (List Char) :=
  match cs.findIdx? (· = lbrace), (cs.reverse.findIdx? (· = rbrace)) with
  | some i, some jr =>
    let j := cs.length - 1 - jr
    if i < j then some ((cs.drop i).take (j - i + 1)) else none
  | _, _ => none

/-- `clean_json_string` (scraper.py lines 66-83): `None`/empty input gives
`None`; otherwise a strict `json.loads` of the full string, then on failure
a strict parse of the first greedy brace span, then `None`. -/
def clean_json_string (text : Option String) : Option Json :=
  match text with
  | none => none
  | some s =>
    if s = "" then none
    else
      match jsonLoads s with
      | some v => some v
      | none =>
        match braceSpan s.data with
        | some sub => jsonLoads (String.mk sub)
        | none => none

/-- The list unwrap of `extract_data_with_llm` (lines 156-157): a parsed
non-empty Python list is replaced by its first element. -/
def listUnwrap : Option Json → Option Json
  | some (Json.arr (x :: _)) => some x
  | o => o

/-- The ResponseParser of the spec: `clean_json_string` followed by the
list unwrap, exactly as composed in `extract_data_with_llm`
(lines 153-157). -/
def parseResponse (raw : Option String) : Option Json :=
  listUnwrap (clean_json_string raw)

/-- Python truthiness of a parsed JSON value (`if ai_data:` at line 322). -/
def jtruthy : Json → Bool
  | Json.null => false
  | Json.bool b => b
  | Json.num q => decide (q ≠ 0)
  | Json.str s => decide (s ≠ "")
  | Json.arr l => !l.isEmpty
  | Json.obj l => !l.isEmpty
  | Json.nanV => true
  | Json.infV => true
  | Json.ninfV => true

/-- Whether the parsed value is a Python dict (so that `.get` succeeds). -/
def isObj : Json → Bool
  | Json.obj _ => true
  | _ => false

/-- Python `dict.get`: `None` when the key is missing; on duplicate keys the
last occurrence wins, as in a `dict` built from a parsed object. -/
def jget (j : Json) (k : String) : Option Json :=
  match j with
  | Json.obj l => (l.reverse.find? (fun p => p.1 == k)).map (·.2)
  | _ => none

/-- A string-valued field; non-string JSON values are modelled as absent
(the scraped fields of interest are strings or null). -/
def asStr? : Option Json → Option String
  | some (Json.str s) => some s
  | _ => none

/-- An integer-valued field; non-integral or non-numeric JSON values are
modelled as absent. -/
def asInt? : Option Json → Option Int
  | some (Json.num q) => if q.den = 1 then some q.num else none
  | _ => none

/-- JSON string escaping of `json.dumps` with `ensure_ascii=False`. -/
def jescapeChar (c : Char) : List Char :=
  if c = quoteChar then ['\\', quoteChar]
  else if c = '\\' then ['\\', '\\']
  else if c = '\n' then ['\\', 'n']
  else if c = '\r' then ['\\', 'r']
  else if c = '\t' then ['\\', 't']
  else [c]

def jstrDump (s : String) : String :=
  String.mk ([quoteChar] ++ s.data.flatMap jescapeChar ++ [quoteChar])

mutual

/-- `json.dumps(·, ensure_ascii=False)` with default separators; the
decimal rendering of non-integral rationals abstracts Python float repr. -/
def jdump : Json → String
  | Json.null => "null"
  | Json.bool true => "true"
  | Json.bool false => "false"
  | Json.num q => if q.den = 1 then toString q.num else toString q
  | Json.str s => jstrDump s
  | Json.arr l => "[" ++ jdumpElems l ++ "]"
  | Json.obj l => String.mk [lbrace] ++ jdumpMembers l ++ String.mk [rbrace]
  | Json.nanV => "NaN"
  | Json.infV => "Infinity"
  | Json.ninfV => "-Infinity"

def jdumpElems : List Json → String
  | [] => ""
  | [x] => jdump x
  | x :: y :: l => jdump x ++ ", " ++ jdumpElems (y :: l)

def jdumpMembers : List (String × Json) → String
  | [] => ""
  | [(k, v)] => jstrDump k ++ ": " ++ jdump v
  | (k, v) :: m :: l => jstrDump k ++ ": " ++ jdump v ++ ", " ++ jdumpMembers (m :: l)

end

/-!
## ExtractionClient (`extract_data_with_llm`, lines 85-166)

The backend is an oracle `String → Option String`: `none` models a
timeout, HTTP error or content-safety rejection (every such path returns
`None` from the function), `some content` the raw text of the reply.  The
second component of the result counts backend calls issued.
-/

def extract_data_with_llm (backend : String → Option String) (text : String) :
    Option Json × Nat :=
  if text.length < 100 then (none, 0)
  else
    match backend text with
    | none => (none, 1)
    | some content => (parseResponse (some content), 1)

/-!
## ContentLocator (lines 294-314)

A detail view is abstracted to the texts of its selector matches.  The
`tdTexts` and `formTexts` fields model the candidate secondary selectors
named by the spec (a table-cell class, a form container); the code never
consults them, which is exactly what the theorems below establish.
-/

structure DocumentView where
  textPre : List String
  tdTexts : List String
  formTexts : List String
  bodyText : String
deriving DecidableEq

/-- Python `max(candidates, key=len)`: scan left to right, replace the
current best only on a strictly greater length (first maximum wins). -/
def pyMaxByLen (first : String) (rest : List String) : String :=
  rest.foldl (fun best c => if c.length > best.length then c else best) first

/-- The smart content grab of `run` (lines 296-314): with no `.text-pre`
match the `wait_for_selector` timeout (or the explicit raise) lands in the
`except` that grabs the body text; otherwise the longest candidate is
taken, degrading to body text when it is shorter than 100 characters. -/
def locate (d : DocumentView) : String :=
  match d.textPre with
  | [] => d.bodyText
  | c :: cs =>
    let raw := pyMaxByLen c cs
    if raw.length < 100 then d.bodyText else raw

/-- The fixed document view refuting the secondary-selector claim: no
primary match, a long secondary table-cell candidate present, and a
distinct body text. -/
def cexSecondary : String :=
  String.mk (List.replicate 120 'x')

def cexDoc : DocumentView :=
  { textPre := [], tdTexts := [cexSecondary], formTexts := [], bodyText := "BODY" }

/-!
## CrawlStateStore (lines 193-206, 327-336, 363-365)

The persisted table is modelled at the record level: a list of lines, each
a list of field strings, the first line being the header.  `readTable`
models `pd.read_csv` typed at this table's schema: the exact five-column
header, at most five fields per record (more is a pandas tokenizer error),
records padded with empty fields (pandas fills missing cells with NaN),
and `Monthly_Salary` parsed as an optional integer.
-/

structure ResultRow where
  case_id : String
  url : String
  job_title : Option String
  monthly_salary : Option Int
  raw_json : String
deriving DecidableEq

/-- The cleanliness side condition of the CSV round trip: an empty-string
job title and an absent one collapse to the same empty cell, as both do in
pandas (empty cell and None both read back as NaN). -/
def rowClean (r : ResultRow) : Prop := r.job_title ≠ some ""

def CsvFile := List (List String)

def csvHeader : List String := ["Case_ID", "URL", "Job_Title", "Monthly_Salary", "Raw_JSON"]

/-- Decimal digits of a natural number, most significant first. -/
def natDigits (n : Nat) : List Char :=
  if h : n < 10 then [Char.ofNat (48 + n)]
  else natDigits (n / 10) ++ [Char.ofNat (48 + n % 10)]
decreasing_by exact Nat.div_lt_self (by omega) (by omega)

/-- Decimal rendering of an integer. -/
def intRepr (z : Int) : String :=
  if z < 0 then String.mk ('-' :: natDigits (-z).toNat) else String.mk (natDigits z.toNat)

def digitVal (c : Char) : Nat := c.toNat - 48

/-- A non-empty all-digit string as a natural number. -/
def parseNatDigits (cs : List Char) : Option Nat :=
  if cs ≠ [] ∧ cs.all Char.isDigit then
    some (cs.foldl (fun a c => a * 10 + digitVal c) 0)
  else none

def decodeSalaryL : List Char → Option (Option Int)
  | [] => some none
  | c :: ds =>
    if c = '-' then (parseNatDigits ds).map (fun n => some (-(Int.ofNat n)))
    else (parseNatDigits (c :: ds)).map (fun n => some (Int.ofNat n))

/-- The `Monthly_Salary` cell: empty is NaN (a missing value); otherwise an
optionally signed decimal integer. -/
def decodeSalary (s : String) : Option (Option Int) :=
  decodeSalaryL s.data

def encodeSalary : Option Int → String
  | none => ""
  | some z => intRepr z

def encodeOptStr : Option String → String
  | none => ""
  | some s => s

def rowToRecord (r : ResultRow) : List String :=
  [r.case_id, r.url, encodeOptStr r.job_title, encodeSalary r.monthly_salary, r.raw_json]

/-- `pd.DataFrame(results).to_csv(...)`: the header line followed by one
record per row. -/
def writeTable (rows : List ResultRow) : CsvFile :=
  csvHeader :: rows.map rowToRecord

def decodeRecord (fields : List String) : Option ResultRow :=
  if fields.length > 5 then none
  else
    match fields ++ List.replicate (5 - fields.length) "" with
    | [a, b, c, d, e] =>
      (decodeSalary d).map (fun sal =>
        { case_id := a, url := b,
          job_title := if c = "" then none else some c,
          monthly_salary := sal, raw_json := e })
    | _ => none

/-- `pd.read_csv` typed at the persisted table's schema; `none` is a raised
parse error (empty file, ragged record, alien header, ill-typed salary). -/
def readTable (f : CsvFile) : Option (List ResultRow) :=
  match f with
  | [] => none
  | header :: records =>
    if header = csvHeader then records.mapM decodeRecord else none

/-- Lines 198-206: a missing file, or a file whose read raises, leaves the
session with empty rows and an empty seen-URL set; a loaded table
contributes its rows and seeds the dedup set from its `URL` column. -/
def load (file : Option CsvFile) : List ResultRow × List String :=
  match file with
  | none => ([], [])
  | some f =>
    match readTable f with
    | none => ([], [])
    | some rows => (rows, rows.map (·.url))

/-- Lines 327-336 together with the discovery-time dedup insertion (line
274) that precedes every append in the session: the row joins the
in-memory sequence, its URL is in the seen set, and the whole table is
rewritten. -/
def append (rows : List ResultRow) (seen : List String) (r : ResultRow) :
    List ResultRow × List String × CsvFile :=
  (rows ++ [r], seen ++ [r.url], writeTable (rows ++ [r]))

/-- Lines 363-368: the final write happens only when there are rows. -/
def endWrite (file : Option CsvFile) (rows : List ResultRow) : Option CsvFile :=
  if rows.isEmpty then file else some (writeTable rows)

/-!
## PaginatedSearchNavigator and CrawlOrchestrator (`run`, lines 241-368)

The browser is abstracted to the session's observable inputs: the sequence
of result pages the frame scan resolves to (an exhausted sequence models
the frame no longer being found), each page carrying its result links and
whether a next-page control exists, and a per-task oracle giving the
outcome of the detail-view pipeline (navigation, locate, truncate, LLM
call, parse): either a raised exception or the value of
`extract_data_with_llm`.
-/

structure CaseTask where
  url : String
  title : String
deriving DecidableEq

/-- One `a[href*='data.aspx']` result link: its `href` attribute (possibly
absent) and its stripped visible text. -/
structure Link where
  href : Option String
  title : String

structure PageView where
  links : List Link
  hasNext : Bool

/-- `str.startswith` on the code points of the string. -/
def strStartsWith (s pre : String) : Bool :=
  pre.data.isPrefixOf s.data

/-- Lines 270-271: relative hrefs get the site base. -/
def normalizeHref (h : String) : String :=
  if strStartsWith h "http" then h else "https://judgment.judicial.gov.tw/FJUD/" ++ h

/-- Lines 266-274: one link of the page; falsy href or title is skipped,
the href is normalized, and a URL not yet seen both joins the page's task
list and is inserted into the seen set at discovery time. -/
def harvestStep (acc : List CaseTask × List String) (link : Link) :
    List CaseTask × List String :=
  match link.href with
  | none => acc
  | some h =>
    if h = "" ∨ link.title = "" then acc
    else
      let u := normalizeHref h
      if u ∈ acc.2 then acc
      else (acc.1 ++ [{ url := u, title := link.title }], acc.2 ++ [u])

/-- The harvesting loop over a page's links. -/
def harvestPage (seen : List String) (links : List Link) :
    List CaseTask × List String :=
  links.foldl harvestStep ([], seen)

/-- Outcome of the per-task try block (lines 291-339): an exception at any
step, or the value returned by `extract_data_with_llm`. -/
inductive TaskResult where
  | raised
  | value (ai : Option Json)

/-- `MAX_CASES_TO_SCRAPE and len(results) >= MAX_CASES_TO_SCRAPE`:
`None` and `0` are falsy, so only a positive configured maximum gates. -/
def quotaReached (maxCases : Option Nat) (n : Nat) : Bool :=
  match maxCases with
  | none => false
  | some m => decide (0 < m) && decide (m ≤ n)

/-- Lines 327-333: the ResultRow built from a task and its parsed data. -/
def mkRow (t : CaseTask) (j : Json) : ResultRow :=
  { case_id := t.title, url := t.url,
    job_title := asStr? (jget j "job_title"),
    monthly_salary := asInt? (jget j "monthly_salary"),
    raw_json := jdump j }

/-- Whether one task contributes a row (lines 322-339): no row on a raised
exception or falsy data; a truthy non-dict raises at `.get` (caught by the
per-task handler), so a row demands a truthy dict. -/
def taskRow (res : TaskResult) (t : CaseTask) : Option ResultRow :=
  match res with
  | TaskResult.raised => none
  | TaskResult.value none => none
  | TaskResult.value (some j) =>
    if jtruthy j && isObj j then some (mkRow t j) else none

/-- The per-page task loop (lines 284-348): the quota is re-checked before
each task; every attempted task has its detail view closed in the
`finally` block, counted by the second component. -/
def processTasks (ext : CaseTask → TaskResult) (maxCases : Option Nat) :
    List CaseTask → List ResultRow → List ResultRow × Nat
  | [], results => (results, 0)
  | t :: ts, results =>
    if quotaReached maxCases results.length then (results, 0)
    else
      let results' :=
        match taskRow (ext t) t with
        | some r => results ++ [r]
        | none => results
      let p := processTasks ext maxCases ts results'
      (p.1, p.2 + 1)

/-- The `while True` pagination loop (lines 243-359): quota check, frame
re-resolution (an exhausted page sequence is the frame not being found),
harvest, the empty-link-set exit, the per-page task loop, and the
next-button exit.  Returns the rows, the seen set and every yielded task. -/
def runPages (ext : CaseTask → TaskResult) (maxCases : Option Nat) :
    List PageView → List ResultRow → List String → List CaseTask →
    List ResultRow × List String × List CaseTask
  | [], results, seen, tasks => (results, seen, tasks)
  | pv :: rest, results, seen, tasks =>
    if quotaReached maxCases results.length then (results, seen, tasks)
    else
      let h := harvestPage seen pv.links
      if pv.links.isEmpty then (results, seen, tasks)
      else
        let results' := (processTasks ext maxCases h.1 results).1
        if pv.hasNext && !(quotaReached maxCases results'.length) then
          runPages ext maxCases rest results' h.2 (tasks ++ h.1)
        else (results', h.2, tasks ++ h.1)

/-- A concrete one-page, one-link scenario whose only task raises during
processing. -/
def cexExt : CaseTask → TaskResult := fun _ => TaskResult.raised

def cexLink : Link := ⟨some "data.aspx?id=9", "c9"⟩

def cexPage : PageView := ⟨[cexLink], false⟩

def cexUrl : String := "https://judgment.judicial.gov.tw/FJUD/data.aspx?id=9"

/-- One whole crawl session: load the persisted table, run the pagination
loop from the loaded state, and perform the final write. -/
def runSession (ext : CaseTask → TaskResult) (maxCases : Option Nat)
    (file : Option CsvFile) (pages : List PageView) :
    List ResultRow × List String × List CaseTask × Option CsvFile :=
  let st := load file
  let r := runPages ext maxCases pages st.1 st.2 []
  (r.1, r.2.1, r.2.2, endWrite file r.1)

/-!
## Theorems: ContentLocator
-/

lemma pyMaxByLen_cons (first r : String) (rest : List String) :
    pyMaxByLen first (r :: rest) =
      pyMaxByLen (if r.length > first.length then r else first) rest := rfl

lemma pyMaxByLen_mem (first : String) (rest : List String) :
    pyMaxByLen first rest ∈ first :: rest := by
  induction rest generalizing first with
  | nil => simp [pyMaxByLen]
  | cons r rest ih =>
    rw [pyMaxByLen_cons]
    by_cases hc : r.length > first.length
    · rw [if_pos hc]
      rcases List.mem_cons.mp (ih r) with h | h
      · simp [h]
      · simp [h]
    · rw [if_neg hc]
      rcases List.mem_cons.mp (ih first) with h | h
      · simp [h]
      · simp [h]

lemma pyMaxByLen_le (first : String) (rest : List String) :
    ∀ y ∈ first :: rest, y.length ≤ (pyMaxByLen first rest).length := by
  induction rest generalizing first with
  | nil => simp [pyMaxByLen]
  | cons r rest ih =>
    intro y hy
    rw [pyMaxByLen_cons]
    have hb := ih (if r.length > first.length then r else first)
    rcases List.mem_cons.mp hy with h | h
    · subst h
      refine le_trans ?_ (hb _ (List.mem_cons_self _ _))
      split <;> omega
    · rcases List.mem_cons.mp h with h' | h'
      · subst h'
        refine le_trans ?_ (hb _ (List.mem_cons_self _ _))
        split <;> omega
      · exact hb _ (List.mem_cons_of_mem _ h')

set_option maxRecDepth 4000 in
/-- C1, counterexample: on a view with zero primary-selector matches and a
long table-cell candidate available, `locate` returns the whole-document
text, not the secondary candidate — no secondary selector is attempted
before the whole-document fallback. -/
theorem locate_no_secondary_counterexample :
    cexDoc.textPre = [] ∧ cexDoc.tdTexts = [cexSecondary] ∧
      100 ≤ cexSecondary.length ∧ locate cexDoc = cexDoc.bodyText ∧
      locate cexDoc ≠ cexSecondary := by
  refine ⟨rfl, rfl, by decide, rfl, by decide⟩

/-- C1, amended: for every document view in which zero elements match the
primary content selector, `locate` falls back directly to the
whole-document text; no secondary selector is consulted. -/
theorem locate_empty_primary_falls_back_to_body (d : DocumentView)
    (h : d.textPre = []) : locate d = d.bodyText := by
  simp [locate, h]

theorem locate_empty_primary_falls_back_to_body_witness :
    (({ textPre := [], tdTexts := [], formTexts := [], bodyText := "B" } : DocumentView).textPre = [])
      ∧ locate { textPre := [], tdTexts := [], formTexts := [], bodyText := "B" } = "B" :=
  ⟨rfl, locate_empty_primary_falls_back_to_body _ rfl⟩

/-- C2: on a non-empty candidate set with pairwise distinct text lengths
the selection step picks exactly the longest candidate, and `locate`
returns it when it meets the 100-character threshold; if every candidate
is below the threshold, `locate` returns the whole-document fallback. -/
theorem locate_longest_candidate_and_threshold (d : DocumentView)
    (c : String) (cs : List String) (hne : d.textPre = c :: cs)
    (hdist : (d.textPre.map String.length).Nodup) :
    (∀ x ∈ d.textPre, (∀ y ∈ d.textPre, y.length ≤ x.length) →
      pyMaxByLen c cs = x ∧ (100 ≤ x.length → locate d = x))
    ∧ ((∀ x ∈ d.textPre, x.length < 100) → locate d = d.bodyText) := by
  constructor
  · intro x hx hmax
    have hmem : pyMaxByLen c cs ∈ d.textPre := hne ▸ pyMaxByLen_mem c cs
    have hxle : x.length ≤ (pyMaxByLen c cs).length := by
      refine pyMaxByLen_le c cs x ?_
      rw [← hne]; exact hx
    have hlex : (pyMaxByLen c cs).length ≤ x.length := hmax _ hmem
    have heq : pyMaxByLen c cs = x :=
      List.inj_on_of_nodup_map hdist hmem hx (by omega)
    refine ⟨heq, fun hth => ?_⟩
    rw [locate, hne]
    simp only
    rw [heq, if_neg (by omega)]
  · intro hshort
    have hmem : pyMaxByLen c cs ∈ d.textPre := hne ▸ pyMaxByLen_mem c cs
    have := hshort _ hmem
    rw [locate, hne]
    simp only
    rw [if_pos (by omega)]

set_option maxRecDepth 4000 in
theorem locate_longest_candidate_and_threshold_witness :
    pyMaxByLen "short" [cexSecondary] = cexSecondary ∧
      locate { textPre := ["short", cexSecondary], tdTexts := [], formTexts := [],
               bodyText := "B" } = cexSecondary := by
  have h := locate_longest_candidate_and_threshold
    { textPre := ["short", cexSecondary], tdTexts := [], formTexts := [], bodyText := "B" }
    "short" [cexSecondary] rfl (by decide)
  have h2 := h.1 cexSecondary (by simp) (by decide)
  exact ⟨h2.1, h2.2 (by decide)⟩

/-!
## Theorems: ResponseParser
-/

/-- C3: null input parses to null; a non-null input gets a strict parse of
the full string first; on failure the first greedy brace span is strictly
parsed; a parsed non-empty array is unwrapped to its first element (as in
the clerk example); when every attempt fails the result is null. -/
theorem parseResponse_spec (s : String) :
    parseResponse none = none
    ∧ (∀ v, jsonLoads s = some v → parseResponse (some s) = listUnwrap (some v))
    ∧ (∀ sub v, jsonLoads s = none → braceSpan s.data = some sub →
        jsonLoads (String.mk sub) = some v → parseResponse (some s) = listUnwrap (some v))
    ∧ (jsonLoads s = none →
        (∀ sub, braceSpan s.data = some sub → jsonLoads (String.mk sub) = none) →
        parseResponse (some s) = none)
    ∧ parseResponse (some "[\x7b\"job_title\":\"clerk\",\"monthly_salary\":30000\x7d]") =
        some (Json.obj [("job_title", Json.str "clerk"), ("monthly_salary", Json.num 30000)])
    ∧ parseResponse (some "not json at all") = none := by
  refine ⟨rfl, ?_, ?_, ?_, by rfl, by rfl⟩
  · intro v h
    have hs : s ≠ "" := by
      rintro rfl
      rw [show jsonLoads "" = none from rfl] at h
      cases h
    simp only [parseResponse, clean_json_string, if_neg hs, h]
  · intro sub v h1 h2 h3
    have hs : s ≠ "" := by
      rintro rfl
      rw [show braceSpan ("" : String).data = none from rfl] at h2
      cases h2
    simp only [parseResponse, clean_json_string, if_neg hs, h1, h2, h3]
  · intro h1 h2
    by_cases hs : s = ""
    · subst hs; rfl
    · cases hb : braceSpan s.data with
      | none => simp only [parseResponse, clean_json_string, if_neg hs, h1, hb, listUnwrap]
      | some sub =>
        simp only [parseResponse, clean_json_string, if_neg hs, h1, hb, h2 sub hb, listUnwrap]

theorem parseResponse_spec_witness :
    parseResponse
        (some "Here is the result:\n```json\n\x7b\"job_title\":null,\"monthly_salary\":null\x7d\n```") =
      some (Json.obj [("job_title", Json.null), ("monthly_salary", Json.null)]) :=
  (parseResponse_spec
      "Here is the result:\n```json\n\x7b\"job_title\":null,\"monthly_salary\":null\x7d\n```").2.2.1
    "\x7b\"job_title\":null,\"monthly_salary\":null\x7d".data
    (Json.obj [("job_title", Json.null), ("monthly_salary", Json.null)])
    (by rfl) (by rfl) (by rfl)

/-!
## Theorems: ExtractionClient and CrawlStateStore error handling
-/

/-- C6: input text below the 100-character threshold yields null with zero
backend calls issued. -/
theorem extract_short_text_no_call (backend : String → Option String)
    (text : String) (h : text.length < 100) :
    extract_data_with_llm backend text = (none, 0) := by
  simp [extract_data_with_llm, h]

theorem extract_short_text_no_call_witness :
    ("hi" : String).length < 100
      ∧ extract_data_with_llm (fun _ => some "[\x7b\x7d]") "hi" = (none, 0) :=
  ⟨by decide, extract_short_text_no_call _ "hi" (by decide)⟩

/-- C7: when the existing persisted table is malformed (its read raises),
the session proceeds from empty state — zero rows and an empty seen-URL
set — instead of aborting. -/
theorem load_malformed_empty_state (f : CsvFile) (h : readTable f = none) :
    load (some f) = ([], []) := by
  simp [load, h]

theorem load_malformed_empty_state_witness :
    readTable [csvHeader, ["a", "b", "c", "d", "e", "f"]] = none
      ∧ load (some [csvHeader, ["a", "b", "c", "d", "e", "f"]]) = ([], []) :=
  ⟨by rfl, load_malformed_empty_state _ (by rfl)⟩

/-!
## Theorems: CrawlStateStore round trip
-/

lemma digit_char_spec (n : Nat) (h : n < 10) :
    (Char.ofNat (48 + n)).isDigit = true ∧ digitVal (Char.ofNat (48 + n)) = n := by
  interval_cases n <;> exact ⟨by decide, by decide⟩

lemma natDigits_spec (n : Nat) :
    natDigits n ≠ [] ∧ (natDigits n).all Char.isDigit = true ∧
      List.foldl (fun a c => a * 10 + digitVal c) 0 (natDigits n) = n := by
  induction n using Nat.strong_induction_on with
  | _ n ih =>
    rw [natDigits]
    by_cases h : n < 10
    · rw [dif_pos h]
      refine ⟨by simp, ?_, ?_⟩
      · simp [(digit_char_spec n h).1]
      · simp [(digit_char_spec n h).2]
    · rw [dif_neg h]
      have h10 : n / 10 < n := Nat.div_lt_self (by omega) (by omega)
      obtain ⟨ih1, ih2, ih3⟩ := ih _ h10
      have hd := digit_char_spec (n % 10) (Nat.mod_lt _ (by omega))
      refine ⟨by simp, ?_, ?_⟩
      · simp [List.all_append, ih2, hd.1]
      · rw [List.foldl_append, ih3]
        simp only [List.foldl_cons, List.foldl_nil, hd.2]
        omega

lemma parseNatDigits_natDigits (n : Nat) : parseNatDigits (natDigits n) = some n := by
  obtain ⟨h1, h2, h3⟩ := natDigits_spec n
  simp [parseNatDigits, h1, h2, h3]

lemma decodeSalary_encodeSalary (o : Option Int) : decodeSalary (encodeSalary o) = some o := by
  match o with
  | none => rfl
  | some z =>
    by_cases hz : z < 0
    · have henc : encodeSalary (some z) = String.mk ('-' :: natDigits (-z).toNat) := by
        simp [encodeSalary, intRepr, hz]
      rw [henc]
      show decodeSalaryL ('-' :: natDigits (-z).toNat) = some (some z)
      rw [show decodeSalaryL ('-' :: natDigits (-z).toNat)
            = (parseNatDigits (natDigits (-z).toNat)).map (fun n => some (-(Int.ofNat n))) from
          rfl]
      rw [parseNatDigits_natDigits]
      simp only [Option.map_some', Option.some.injEq, Int.ofNat_eq_coe]
      omega
    · have henc : encodeSalary (some z) = String.mk (natDigits z.toNat) := by
        simp [encodeSalary, intRepr, hz]
      rw [henc]
      obtain ⟨h1, h2, h3⟩ := natDigits_spec z.toNat
      rcases hnd : natDigits z.toNat with _ | ⟨c, ds⟩
      · exact absurd hnd h1
      · show decodeSalaryL (c :: ds) = some (some z)
        have hcd : c.isDigit = true := by
          rw [hnd, List.all_cons, Bool.and_eq_true] at h2
          exact h2.1
        have hcne : ¬ c = '-' := by
          intro e
          rw [e] at hcd
          exact absurd hcd (by decide)
        rw [show decodeSalaryL (c :: ds)
              = (parseNatDigits (c :: ds)).map (fun n => some (Int.ofNat n)) from by
            rw [decodeSalaryL, if_neg hcne]]
        rw [← hnd, parseNatDigits_natDigits]
        simp only [Option.map_some', Option.some.injEq, Int.ofNat_eq_coe]
        omega

lemma decodeRecord_rowToRecord (r : ResultRow) (h : rowClean r) :
    decodeRecord (rowToRecord r) = some r := by
  obtain ⟨a, b, jt, ms, rj⟩ := r
  have hlen : (rowToRecord ⟨a, b, jt, ms, rj⟩).length = 5 := rfl
  simp only [decodeRecord, hlen, rowToRecord]
  norm_num
  rw [decodeSalary_encodeSalary]
  simp only [Option.map_some', Option.some.injEq]
  cases jt with
  | none => simp [encodeOptStr]
  | some s =>
    have hs : s ≠ "" := fun e => h (by simp [rowClean, e])
    simp [encodeOptStr, hs]

lemma mapM_decode (rows : List ResultRow) (h : ∀ r ∈ rows, rowClean r) :
    (rows.map rowToRecord).mapM decodeRecord = some rows := by
  induction rows with
  | nil => rfl
  | cons r rs ih =>
    rw [List.map_cons, List.mapM_cons, decodeRecord_rowToRecord r (h r (List.mem_cons_self _ _)),
      ih (fun x hx => h x (List.mem_cons_of_mem _ hx))]
    rfl

lemma readTable_writeTable (rows : List ResultRow) (h : ∀ r ∈ rows, rowClean r) :
    readTable (writeTable rows) = some rows := by
  rw [writeTable, readTable, if_pos rfl, mapM_decode rows h]

lemma load_writeTable (rows : List ResultRow) (h : ∀ r ∈ rows, rowClean r) :
    load (some (writeTable rows)) = (rows, rows.map ResultRow.url) := by
  simp [load, readTable_writeTable rows h]

/-- C5: loading a pre-existing 3-row table seeds the dedup set with its
three URLs; appending a fourth row yields 4 rows with its URL in the seen
set and the table rewritten; re-loading the rewritten table reproduces the
same 4-row state. -/
theorem store_load_append_roundtrip (r1 r2 r3 r4 : ResultRow)
    (h1 : rowClean r1) (h2 : rowClean r2) (h3 : rowClean r3) (h4 : rowClean r4) :
    load (some (writeTable [r1, r2, r3])) = ([r1, r2, r3], [r1.url, r2.url, r3.url])
    ∧ (append [r1, r2, r3] [r1.url, r2.url, r3.url] r4).1 = [r1, r2, r3, r4]
    ∧ r4.url ∈ (append [r1, r2, r3] [r1.url, r2.url, r3.url] r4).2.1
    ∧ load (some (append [r1, r2, r3] [r1.url, r2.url, r3.url] r4).2.2) =
        ([r1, r2, r3, r4], [r1.url, r2.url, r3.url, r4.url]) := by
  have hall3 : ∀ r ∈ [r1, r2, r3], rowClean r := by
    intro r hr
    simp only [List.mem_cons, List.not_mem_nil, or_false] at hr
    rcases hr with rfl | rfl | rfl <;> assumption
  have hall4 : ∀ r ∈ [r1, r2, r3, r4], rowClean r := by
    intro r hr
    simp only [List.mem_cons, List.not_mem_nil, or_false] at hr
    rcases hr with rfl | rfl | rfl | rfl <;> assumption
  refine ⟨?_, rfl, by simp [append], ?_⟩
  · rw [load_writeTable _ hall3]
    rfl
  · show load (some (writeTable [r1, r2, r3, r4])) = _
    rw [load_writeTable _ hall4]
    rfl

theorem store_load_append_roundtrip_witness :
    load (some (writeTable
        [{ case_id := "c1", url := "A", job_title := some "t1", monthly_salary := some 30000,
           raw_json := "x1" },
         { case_id := "c2", url := "B", job_title := none, monthly_salary := none,
           raw_json := "x2" },
         { case_id := "c3", url := "C", job_title := some "t3", monthly_salary := some (-5),
           raw_json := "x3" }])) =
      ([{ case_id := "c1", url := "A", job_title := some "t1", monthly_salary := some 30000,
          raw_json := "x1" },
        { case_id := "c2", url := "B", job_title := none, monthly_salary := none,
          raw_json := "x2" },
        { case_id := "c3", url := "C", job_title := some "t3", monthly_salary := some (-5),
          raw_json := "x3" }], ["A", "B", "C"]) :=
  (store_load_append_roundtrip _ _ _
      { case_id := "c4", url := "D", job_title := some "t4", monthly_salary := some 1,
        raw_json := "x4" }
      (by simp [rowClean]) (by simp [rowClean]) (by simp [rowClean]) (by simp [rowClean])).1

/-!
## Theorems: navigator and orchestrator session
-/

lemma harvestStep_some (acc : List CaseTask × List String) (h ttl : String) :
    harvestStep acc ⟨some h, ttl⟩ =
      if h = "" ∨ ttl = "" then acc
      else if normalizeHref h ∈ acc.2 then acc
      else (acc.1 ++ [{ url := normalizeHref h, title := ttl }],
            acc.2 ++ [normalizeHref h]) := rfl

lemma harvest_fold_spec (links : List Link) :
    ∀ acc : List CaseTask × List String, ∃ new : List CaseTask,
      (links.foldl harvestStep acc).1 = acc.1 ++ new ∧
      (links.foldl harvestStep acc).2 = acc.2 ++ new.map CaseTask.url ∧
      (new.map CaseTask.url).Nodup ∧
      ∀ u ∈ new.map CaseTask.url, u ∉ acc.2 := by
  induction links with
  | nil =>
    intro acc
    exact ⟨[], by simp, by simp, by simp, by simp⟩
  | cons l ls ih =>
    intro acc
    rw [List.foldl_cons]
    rcases l with ⟨href, ttl⟩
    cases href with
    | none => exact ih acc
    | some h =>
      rw [harvestStep_some]
      by_cases hc : h = "" ∨ ttl = ""
      · rw [if_pos hc]; exact ih acc
      · rw [if_neg hc]
        by_cases hm : normalizeHref h ∈ acc.2
        · rw [if_pos hm]; exact ih acc
        · rw [if_neg hm]
          obtain ⟨new', e1, e2, e3, e4⟩ :=
            ih (acc.1 ++ [{ url := normalizeHref h, title := ttl }], acc.2 ++ [normalizeHref h])
          refine ⟨{ url := normalizeHref h, title := ttl } :: new', ?_, ?_, ?_, ?_⟩
          · rw [e1]; simp
          · rw [e2]; simp
          · rw [List.map_cons]
            refine List.nodup_cons.mpr ⟨?_, e3⟩
            intro hmem
            exact (e4 _ hmem) (by simp)
          · intro v hv
            rw [List.map_cons] at hv
            rcases List.mem_cons.mp hv with rfl | hv'
            · exact hm
            · intro hvacc
              exact (e4 _ hv') (by simp [hvacc])

lemma harvestPage_spec (seen : List String) (links : List Link) :
    (harvestPage seen links).2 = seen ++ (harvestPage seen links).1.map CaseTask.url ∧
    ((harvestPage seen links).1.map CaseTask.url).Nodup ∧
    ∀ u ∈ (harvestPage seen links).1.map CaseTask.url, u ∉ seen := by
  obtain ⟨new, e1, e2, e3, e4⟩ := harvest_fold_spec links ([], seen)
  have hfst : (harvestPage seen links).1 = new := by
    show (links.foldl harvestStep ([], seen)).1 = new
    rw [e1, List.nil_append]
  have hsnd : (harvestPage seen links).2 = seen ++ new.map CaseTask.url := e2
  rw [hfst, hsnd]
  exact ⟨rfl, e3, e4⟩

lemma harvest_fold_seen_mono (links : List Link) (acc : List CaseTask × List String)
    (u : String) (hu : u ∈ acc.2) : u ∈ (links.foldl harvestStep acc).2 := by
  obtain ⟨new, -, e2, -, -⟩ := harvest_fold_spec links acc
  rw [e2]
  exact List.mem_append_left _ hu

lemma harvest_fold_yields (links : List Link) :
    ∀ (acc : List CaseTask × List String) (h ttl : String),
      (⟨some h, ttl⟩ : Link) ∈ links → ¬(h = "" ∨ ttl = "") →
      normalizeHref h ∈ (links.foldl harvestStep acc).2 := by
  induction links with
  | nil =>
    intro acc h ttl hmem
    cases hmem
  | cons l ls ih =>
    intro acc h ttl hmem hc
    rw [List.foldl_cons]
    rcases List.mem_cons.mp hmem with he | hmem'
    · rw [← he, harvestStep_some, if_neg hc]
      by_cases hm : normalizeHref h ∈ acc.2
      · rw [if_pos hm]
        exact harvest_fold_seen_mono ls acc _ hm
      · rw [if_neg hm]
        exact harvest_fold_seen_mono ls _ _ (by simp)
    · exact ih (harvestStep acc l) h ttl hmem' hc

lemma harvestPage_yields (seen : List String) (links : List Link) (h ttl : String)
    (hmem : (⟨some h, ttl⟩ : Link) ∈ links) (hh : ¬ h = "") (ht : ¬ ttl = "")
    (hseen : normalizeHref h ∉ seen) :
    normalizeHref h ∈ (harvestPage seen links).1.map CaseTask.url := by
  have h2 : normalizeHref h ∈ (harvestPage seen links).2 :=
    harvest_fold_yields links ([], seen) h ttl hmem (by tauto)
  obtain ⟨hsnd, -, -⟩ := harvestPage_spec seen links
  rw [hsnd] at h2
  rcases List.mem_append.mp h2 with hl | hr
  · exact absurd hl hseen
  · exact hr

lemma taskRow_url (res : TaskResult) (t : CaseTask) (r : ResultRow)
    (h : taskRow res t = some r) : r.url = t.url := by
  cases res with
  | raised => cases h
  | value ai =>
    cases ai with
    | none => cases h
    | some j =>
      simp only [taskRow] at h
      split at h
      · injection h with h'
        rw [← h']
        rfl
      · cases h

lemma processTasks_spec (ext : CaseTask → TaskResult) (maxCases : Option Nat)
    (ts : List CaseTask) :
    ∀ rows, ∃ new : List ResultRow,
      (processTasks ext maxCases ts rows).1 = rows ++ new ∧
      (new.map ResultRow.url).Sublist (ts.map CaseTask.url) ∧
      ∀ r ∈ new, ∃ t ∈ ts, r.url = t.url ∧ taskRow (ext t) t = some r := by
  induction ts with
  | nil =>
    intro rows
    exact ⟨[], by simp [processTasks], by simp, by simp⟩
  | cons t ts ih =>
    intro rows
    by_cases hq : quotaReached maxCases rows.length = true
    · exact ⟨[], by simp [processTasks, hq], by simp, by simp⟩
    · have hq' : quotaReached maxCases rows.length = false := by
        revert hq
        cases quotaReached maxCases rows.length <;> simp
      cases htr : taskRow (ext t) t with
      | none =>
        obtain ⟨new, e1, e2, e3⟩ := ih rows
        refine ⟨new, ?_, e2.cons _, ?_⟩
        · simp [processTasks, hq', htr, e1]
        · intro r hr
          obtain ⟨t', ht', hu, hrow⟩ := e3 r hr
          exact ⟨t', List.mem_cons_of_mem _ ht', hu, hrow⟩
      | some r0 =>
        obtain ⟨new, e1, e2, e3⟩ := ih (rows ++ [r0])
        refine ⟨r0 :: new, ?_, ?_, ?_⟩
        · simp [processTasks, hq', htr, e1]
        · rw [List.map_cons, taskRow_url _ _ _ htr]
          exact e2.cons₂ _
        · intro r hr
          rcases List.mem_cons.mp hr with rfl | hr'
          · exact ⟨t, List.mem_cons_self _ _, taskRow_url _ _ _ htr, htr⟩
          · obtain ⟨t', ht', hu, hrow⟩ := e3 r hr'
            exact ⟨t', List.mem_cons_of_mem _ ht', hu, hrow⟩

lemma processTasks_closed (ext : CaseTask → TaskResult) (ts : List CaseTask) :
    ∀ rows, (processTasks ext none ts rows).2 = ts.length := by
  induction ts with
  | nil => intro rows; rfl
  | cons t ts ih =>
    intro rows
    simp [processTasks, quotaReached, ih]

/-- C8: a task whose pipeline raises is skipped — the remaining tasks are
processed exactly as if it were absent, with one more closed detail view —
and with no quota every attempted task has its detail view closed exactly
once, whatever its outcome. -/
theorem task_failure_isolation (ext : CaseTask → TaskResult) (maxCases : Option Nat)
    (t : CaseTask) (ts : List CaseTask) (rows : List ResultRow)
    (hq : quotaReached maxCases rows.length = false) (hfail : ext t = TaskResult.raised) :
    processTasks ext maxCases (t :: ts) rows =
      ((processTasks ext maxCases ts rows).1, (processTasks ext maxCases ts rows).2 + 1)
    ∧ ∀ (ts2 : List CaseTask) (rows2 : List ResultRow),
        (processTasks ext none ts2 rows2).2 = ts2.length := by
  constructor
  · have htr : taskRow (ext t) t = none := by rw [hfail]; rfl
    simp [processTasks, hq, htr]
  · intro ts2 rows2
    exact processTasks_closed ext ts2 rows2

theorem task_failure_isolation_witness :
    quotaReached none ([] : List ResultRow).length = false
    ∧ processTasks (fun _ => TaskResult.raised) none [⟨"u", "t"⟩] [] = ([], 1) :=
  ⟨rfl, (task_failure_isolation (fun _ => TaskResult.raised) none ⟨"u", "t"⟩ [] [] rfl rfl).1⟩

lemma runPages_spec (ext : CaseTask → TaskResult) (maxCases : Option Nat)
    (pages : List PageView) :
    ∀ rows seen tasks, ∃ (newTasks : List CaseTask) (newRows : List ResultRow),
      (runPages ext maxCases pages rows seen tasks).2.2 = tasks ++ newTasks ∧
      (runPages ext maxCases pages rows seen tasks).1 = rows ++ newRows ∧
      (runPages ext maxCases pages rows seen tasks).2.1 = seen ++ newTasks.map CaseTask.url ∧
      (newTasks.map CaseTask.url).Nodup ∧
      (∀ u ∈ newTasks.map CaseTask.url, u ∉ seen) ∧
      (newRows.map ResultRow.url).Sublist (newTasks.map CaseTask.url) ∧
      ∀ r ∈ newRows, ∃ t ∈ newTasks, r.url = t.url ∧ taskRow (ext t) t = some r := by
  induction pages with
  | nil =>
    intro rows seen tasks
    exact ⟨[], [], by simp [runPages], by simp [runPages], by simp [runPages],
      by simp, by simp, by simp, by simp⟩
  | cons pv rest ih =>
    intro rows seen tasks
    by_cases hq : quotaReached maxCases rows.length = true
    · exact ⟨[], [], by simp [runPages, hq], by simp [runPages, hq], by simp [runPages, hq],
        by simp, by simp, by simp, by simp⟩
    · have hq' : quotaReached maxCases rows.length = false := by
        revert hq
        cases quotaReached maxCases rows.length <;> simp
      by_cases hl : pv.links.isEmpty = true
      · exact ⟨[], [], by simp [runPages, hq', hl], by simp [runPages, hq', hl],
          by simp [runPages, hq', hl], by simp, by simp, by simp, by simp⟩
      · have hl' : pv.links.isEmpty = false := by
          revert hl
          cases pv.links.isEmpty <;> simp
        obtain ⟨hsnd, hnd, hns⟩ := harvestPage_spec seen pv.links
        obtain ⟨new1, ep1, ep2, ep3⟩ :=
          processTasks_spec ext maxCases (harvestPage seen pv.links).1 rows
        by_cases hnext :
            (pv.hasNext &&
              !(quotaReached maxCases
                  (processTasks ext maxCases (harvestPage seen pv.links).1 rows).1.length)) = true
        · have hrun : runPages ext maxCases (pv :: rest) rows seen tasks =
              runPages ext maxCases rest
                (processTasks ext maxCases (harvestPage seen pv.links).1 rows).1
                (harvestPage seen pv.links).2
                (tasks ++ (harvestPage seen pv.links).1) := by
            simp only [runPages, hq', hl', hnext]
            simp
          obtain ⟨nt2, nr2, f1, f2, f3, f4, f5, f6, f7⟩ :=
            ih (processTasks ext maxCases (harvestPage seen pv.links).1 rows).1
              (harvestPage seen pv.links).2 (tasks ++ (harvestPage seen pv.links).1)
          refine ⟨(harvestPage seen pv.links).1 ++ nt2, new1 ++ nr2, ?_, ?_, ?_, ?_, ?_, ?_, ?_⟩
          · rw [hrun, f1]
            simp
          · rw [hrun, f2, ep1]
            simp
          · rw [hrun, f3, hsnd]
            simp
          · rw [List.map_append]
            refine List.nodup_append.mpr ⟨hnd, f4, ?_⟩
            intro v hv1 hv2
            exact (f5 v hv2) (by rw [hsnd]; exact List.mem_append_right _ hv1)
          · intro v hv
            rw [List.map_append] at hv
            rcases List.mem_append.mp hv with hv1 | hv2
            · exact hns v hv1
            · intro hvseen
              exact (f5 v hv2) (by rw [hsnd]; exact List.mem_append_left _ hvseen)
          · rw [List.map_append, List.map_append]
            exact ep2.append f6
          · intro r hr
            rcases List.mem_append.mp hr with hr1 | hr2
            · obtain ⟨t', ht', hx⟩ := ep3 r hr1
              exact ⟨t', List.mem_append_left _ ht', hx⟩
            · obtain ⟨t', ht', hx⟩ := f7 r hr2
              exact ⟨t', List.mem_append_right _ ht', hx⟩
        · have hnext' :
              (pv.hasNext &&
                !(quotaReached maxCases
                    (processTasks ext maxCases (harvestPage seen pv.links).1 rows).1.length))
                = false := by
            revert hnext
            cases pv.hasNext &&
              !(quotaReached maxCases
                  (processTasks ext maxCases (harvestPage seen pv.links).1 rows).1.length) <;>
              simp
          have hrun : runPages ext maxCases (pv :: rest) rows seen tasks =
              ((processTasks ext maxCases (harvestPage seen pv.links).1 rows).1,
               (harvestPage seen pv.links).2,
               tasks ++ (harvestPage seen pv.links).1) := by
            simp only [runPages, hq', hl', hnext']
            simp
          refine ⟨(harvestPage seen pv.links).1, new1, ?_, ?_, ?_, hnd, hns, ep2, ?_⟩
          · rw [hrun]
          · rw [hrun]
            exact ep1
          · rw [hrun]
            exact hsnd
          · intro r hr
            exact ep3 r hr

lemma load_seed (file : Option CsvFile) :
    (load file).2 = (load file).1.map ResultRow.url := by
  cases file with
  | none => rfl
  | some f =>
    cases h : readTable f with
    | none => simp [load, h]
    | some rows => simp [load, h]

/-- C4: across one whole session the navigator never yields two tasks with
the same URL, and — when the pre-existing table's URLs are themselves
distinct — the URL column stays unique across all rows, pre-loaded and
appended alike, because the loaded URLs seed the dedup set. -/
theorem session_url_uniqueness (ext : CaseTask → TaskResult) (maxCases : Option Nat)
    (pages : List PageView) (file : Option CsvFile) :
    ((runPages ext maxCases pages (load file).1 (load file).2 []).2.2.map CaseTask.url).Nodup
    ∧ (((load file).1.map ResultRow.url).Nodup →
        ((runPages ext maxCases pages (load file).1 (load file).2 []).1.map
          ResultRow.url).Nodup) := by
  obtain ⟨nt, nr, f1, f2, f3, f4, f5, f6, f7⟩ :=
    runPages_spec ext maxCases pages (load file).1 (load file).2 []
  constructor
  · rw [f1]
    simpa using f4
  · intro h0
    rw [f2, List.map_append]
    refine List.nodup_append.mpr ⟨h0, f4.sublist f6, ?_⟩
    intro v hv1 hv2
    have hv3 : v ∈ nt.map CaseTask.url := f6.subset hv2
    exact (f5 v hv3) (by rw [load_seed]; exact hv1)

theorem session_url_uniqueness_witness :
    (((load none).1.map ResultRow.url).Nodup)
    ∧ ((runPages (fun _ => TaskResult.value none) none
          [⟨[⟨some "data.aspx?a", "t"⟩], false⟩] (load none).1 (load none).2 []).1.map
        ResultRow.url).Nodup :=
  ⟨by simp [load],
   (session_url_uniqueness (fun _ => TaskResult.value none) none
      [⟨[⟨some "data.aspx?a", "t"⟩], false⟩] none).2 (by simp [load])⟩

/-- C10: the quota is checked against the in-memory row count, which
starts at the loaded table's size; a resumed session whose loaded table
already meets a positive configured maximum processes zero new cases —
no rows change, no task is yielded. -/
theorem quota_counts_preloaded_rows (ext : CaseTask → TaskResult) (pages : List PageView)
    (file : Option CsvFile) (m : Nat) (hm : 0 < m)
    (hfull : m ≤ (load file).1.length) :
    runPages ext (some m) pages (load file).1 (load file).2 [] =
      ((load file).1, (load file).2, []) := by
  have hq : quotaReached (some m) (load file).1.length = true := by
    simp [quotaReached, hm, hfull]
  cases pages with
  | nil => rfl
  | cons pv rest => simp [runPages, hq]

theorem quota_counts_preloaded_rows_witness :
    (0 < 1 ∧ 1 ≤ (load (some [csvHeader, ["c1", "u1", "j", "30000", "r"]])).1.length)
    ∧ runPages (fun _ => TaskResult.raised) (some 1)
        [⟨[⟨some "data.aspx?x", "t"⟩], true⟩]
        (load (some [csvHeader, ["c1", "u1", "j", "30000", "r"]])).1
        (load (some [csvHeader, ["c1", "u1", "j", "30000", "r"]])).2 [] =
      ((load (some [csvHeader, ["c1", "u1", "j", "30000", "r"]])).1,
       (load (some [csvHeader, ["c1", "u1", "j", "30000", "r"]])).2, []) :=
  ⟨⟨by decide, by decide⟩,
   quota_counts_preloaded_rows (fun _ => TaskResult.raised)
     [⟨[⟨some "data.aspx?x", "t"⟩], true⟩]
     (some [csvHeader, ["c1", "u1", "j", "30000", "r"]]) 1 (by decide) (by decide)⟩

/-- C9: every yielded URL is in the seen set already at discovery time
(during harvesting, before any task of the page is processed); a URL is
yielded at most once per session regardless of how its processing ends;
the persisted seen set after the final rewrite is exactly the appended
rows' URLs; and a yielded task that produced no row (failure or null
extraction) leaves no persisted URL, so a later session harvesting a link
to that URL yields it again. -/
theorem seen_at_discovery_spec (ext : CaseTask → TaskResult) (maxCases : Option Nat)
    (pages : List PageView) (file : Option CsvFile) :
    (∀ seen links, ∀ t ∈ (harvestPage seen links).1, t.url ∈ (harvestPage seen links).2)
    ∧ ((runPages ext maxCases pages (load file).1 (load file).2 []).2.2.map CaseTask.url).Nodup
    ∧ ((∀ r ∈ (runPages ext maxCases pages (load file).1 (load file).2 []).1, rowClean r) →
        (load (endWrite file (runPages ext maxCases pages (load file).1 (load file).2 []).1)).2
          = (runPages ext maxCases pages (load file).1 (load file).2 []).1.map ResultRow.url)
    ∧ ∀ u, u ∈ (runPages ext maxCases pages (load file).1 (load file).2 []).2.2.map CaseTask.url →
        (∀ t ∈ (runPages ext maxCases pages (load file).1 (load file).2 []).2.2,
          t.url = u → taskRow (ext t) t = none) →
        u ∉ (runPages ext maxCases pages (load file).1 (load file).2 []).1.map ResultRow.url
        ∧ ((∀ r ∈ (runPages ext maxCases pages (load file).1 (load file).2 []).1, rowClean r) →
            u ∉ (load (endWrite file
                  (runPages ext maxCases pages (load file).1 (load file).2 []).1)).2
            ∧ ∀ (links : List Link) (h2 ttl : String),
                (⟨some h2, ttl⟩ : Link) ∈ links → ¬ h2 = "" → ¬ ttl = "" →
                normalizeHref h2 = u →
                u ∈ (harvestPage (load (endWrite file
                      (runPages ext maxCases pages (load file).1 (load file).2 []).1)).2
                    links).1.map CaseTask.url) := by
  obtain ⟨nt, nr, f1, f2, f3, f4, f5, f6, f7⟩ :=
    runPages_spec ext maxCases pages (load file).1 (load file).2 []
  have hpersist :
      (∀ r ∈ (runPages ext maxCases pages (load file).1 (load file).2 []).1, rowClean r) →
      (load (endWrite file (runPages ext maxCases pages (load file).1 (load file).2 []).1)).2
        = (runPages ext maxCases pages (load file).1 (load file).2 []).1.map ResultRow.url := by
    intro hclean
    by_cases hre : (runPages ext maxCases pages (load file).1 (load file).2 []).1.isEmpty = true
    · have he : (runPages ext maxCases pages (load file).1 (load file).2 []).1 = [] := by
        rwa [List.isEmpty_iff] at hre
      rw [endWrite, if_pos hre, he, List.map_nil, load_seed]
      have h0 : (load file).1 = [] := by
        have := f2
        rw [he] at this
        exact (List.append_eq_nil.mp this.symm).1
      rw [h0, List.map_nil]
    · rw [endWrite, if_neg hre]
      rw [load_writeTable _ hclean]
  refine ⟨?_, ?_, hpersist, ?_⟩
  · intro seen links t ht
    obtain ⟨hsnd, -, -⟩ := harvestPage_spec seen links
    rw [hsnd]
    exact List.mem_append_right _ (List.mem_map_of_mem _ ht)
  · rw [f1]
    simpa using f4
  · intro u hu hnone
    have hu' : u ∈ nt.map CaseTask.url := by
      rw [f1, List.nil_append] at hu
      exact hu
    have hnotrow :
        u ∉ (runPages ext maxCases pages (load file).1 (load file).2 []).1.map ResultRow.url := by
      rw [f2, List.map_append]
      intro hmem
      rcases List.mem_append.mp hmem with h0 | h1
      · exact (f5 u hu') (by rw [load_seed]; exact h0)
      · obtain ⟨r, hr, hru⟩ := List.mem_map.mp h1
        obtain ⟨t', ht', hurl, hrow⟩ := f7 r hr
        have ht'' : t' ∈ (runPages ext maxCases pages (load file).1 (load file).2 []).2.2 := by
          rw [f1]
          exact List.mem_append_right _ ht'
        have hz : taskRow (ext t') t' = none := hnone t' ht'' (by rw [← hurl, hru])
        rw [hz] at hrow
        cases hrow
    refine ⟨hnotrow, ?_⟩
    intro hclean
    have hseed := hpersist hclean
    refine ⟨by rw [hseed]; exact hnotrow, ?_⟩
    intro links h2 ttl hmem hh2 httl hnorm
    have hy := harvestPage_yields
      (load (endWrite file (runPages ext maxCases pages (load file).1 (load file).2 []).1)).2
      links h2 ttl hmem hh2 httl (by rw [hnorm, hseed]; exact hnotrow)
    rwa [hnorm] at hy

theorem seen_at_discovery_spec_witness :
    cexUrl ∉ ((runPages cexExt none [cexPage] (load none).1 (load none).2 []).1.map
        ResultRow.url)
    ∧ cexUrl ∈ ((harvestPage (load (endWrite none
          (runPages cexExt none [cexPage] (load none).1 (load none).2 []).1)).2
        [cexLink]).1.map CaseTask.url) := by
  have h := (seen_at_discovery_spec cexExt none [cexPage] none).2.2.2 cexUrl
    (by decide) (by decide)
  have hclean : ∀ r ∈ (runPages cexExt none [cexPage] (load none).1 (load none).2 []).1,
      rowClean r := by
    intro r hr
    rw [show (runPages cexExt none [cexPage] (load none).1 (load none).2 []).1
          = ([] : List ResultRow) from by decide] at hr
    exact absurd hr (List.not_mem_nil r)
  exact ⟨h.1, (h.2 hclean).2 [cexLink] "data.aspx?id=9" "c9" (List.mem_cons_self _ _)
    (by decide) (by decide) (by decide)⟩

end Scraper
